import Mathlib

/-!
Verification of the Bencode codec and UDP tracker messaging layer of a
BitTorrent client written in TypeScript.

Modelling conventions of the shallow embedding:
- A JavaScript string is modelled as a `List Nat` of UTF-16 code units
  (each below 0x10000); `String.prototype.length` is the code-unit count
  and the default array sort compares strings code-unit-wise, both of
  which the embedding mirrors.
- A Node `Buffer` is modelled as a `List Nat` of bytes. `Buffer.from(s,
  encoding)` with the default utf-8 encoding is `utf8Encode` applied to
  the code units of `s`; `buffer.toString(encoding)` is `utf8Decode`.
  The optional `encoding` argument of every codec function is modelled
  at its default value, utf-8.
- A `Try<T>` value from the javascriptutilities library is modelled as
  `Except String T`: `Try.success` is `Except.ok` and `Try.failure` or a
  thrown error later caught by a `Try` combinator is `Except.error`.
  Exact failure message texts are kept close to the source but simplified
  where the source interpolates values into the message.
- JavaScript `number` inputs that the source validates with
  `Number.isInteger` are modelled as `Int`, so that branch of the source
  is always taken in the model; the spec restricts integers to i64.
-/

namespace Bencode

/-- Modelled from the spec: the token module of the repository (imported as
`./tokens` by the codec) is not part of the provided sources; the spec
describes the token grammar of the four bencode value kinds, from which the
two constants used by the decoder are taken: `:` separates a string length
from its payload and `d` starts a dictionary. The values agree with the
bytes the encoder itself emits. -/
def delimiter : Nat := 58

/-- Modelled from the spec: the dictionary start marker `d`. -/
def dictionary_start : Nat := 100

/-- UTF-8 encoding of a list of UTF-16 code units, processed with explicit
fuel (one unit of fuel per code unit, so `length` fuel always suffices).
Surrogate pairs are combined into a 4-byte sequence; a lone surrogate is
replaced by U+FFFD, as Node `Buffer.from` does. -/
def utf8EncodeGo : Nat → List Nat → List Nat
  | 0, _ => []
  | _, [] => []
  | fuel + 1, u :: rest =>
    if u < 0x80 then u :: utf8EncodeGo fuel rest
    else if u < 0x800 then
      (0xC0 + u / 64) :: (0x80 + u % 64) :: utf8EncodeGo fuel rest
    else if 0xD800 ≤ u ∧ u < 0xDC00 then
      match rest with
      | v :: rest2 =>
        if 0xDC00 ≤ v ∧ v < 0xE000 then
          let cp := 0x10000 + (u - 0xD800) * 1024 + (v - 0xDC00)
          (0xF0 + cp / 262144) :: (0x80 + cp / 4096 % 64) ::
            (0x80 + cp / 64 % 64) :: (0x80 + cp % 64) :: utf8EncodeGo fuel rest2
        else 0xEF :: 0xBF :: 0xBD :: utf8EncodeGo fuel rest
      | [] => [0xEF, 0xBF, 0xBD]
    else if 0xDC00 ≤ u ∧ u < 0xE000 then
      0xEF :: 0xBF :: 0xBD :: utf8EncodeGo fuel rest
    else
      (0xE0 + u / 4096) :: (0x80 + u / 64 % 64) :: (0x80 + u % 64) ::
        utf8EncodeGo fuel rest

/-- UTF-8 encoding of a JavaScript string given as UTF-16 code units. -/
def utf8Encode (units : List Nat) : List Nat :=
  utf8EncodeGo units.length units

/-- UTF-8 decoding of a byte list into UTF-16 code units, with fuel (one
unit per byte). Models Node `buffer.toString` with utf-8: code points above
0xFFFF become surrogate pairs; malformed bytes become U+FFFD (the precise
replacement policy of Node for malformed multi-byte runs is approximated;
no claim below exercises a malformed sequence). -/
def utf8DecodeGo : Nat → List Nat → List Nat
  | 0, _ => []
  | _, [] => []
  | fuel + 1, b :: rest =>
    if b < 0x80 then b :: utf8DecodeGo fuel rest
    else if b < 0xC2 then 0xFFFD :: utf8DecodeGo fuel rest
    else if b < 0xE0 then
      match rest with
      | b2 :: rest2 =>
        if b2 / 64 = 2 then
          ((b - 0xC0) * 64 + (b2 - 0x80)) :: utf8DecodeGo fuel rest2
        else 0xFFFD :: utf8DecodeGo fuel rest
      | [] => [0xFFFD]
    else if b < 0xF0 then
      match rest with
      | b2 :: b3 :: rest3 =>
        if b2 / 64 = 2 ∧ b3 / 64 = 2 then
          ((b - 0xE0) * 4096 + (b2 - 0x80) * 64 + (b3 - 0x80)) ::
            utf8DecodeGo fuel rest3
        else 0xFFFD :: utf8DecodeGo fuel rest
      | _ => [0xFFFD]
    else if b < 0xF5 then
      match rest with
      | b2 :: b3 :: b4 :: rest4 =>
        if b2 / 64 = 2 ∧ b3 / 64 = 2 ∧ b4 / 64 = 2 then
          let cp := (b - 0xF0) * 262144 + (b2 - 0x80) * 4096 +
            (b3 - 0x80) * 64 + (b4 - 0x80)
          if cp < 0x10000 then 0xFFFD :: utf8DecodeGo fuel rest4
          else (0xD800 + (cp - 0x10000) / 1024) ::
            (0xDC00 + (cp - 0x10000) % 1024) :: utf8DecodeGo fuel rest4
        else 0xFFFD :: utf8DecodeGo fuel rest
      | _ => [0xFFFD]
    else 0xFFFD :: utf8DecodeGo fuel rest

/-- UTF-8 decoding of a byte list into UTF-16 code units. -/
def utf8Decode (bytes : List Nat) : List Nat :=
  utf8DecodeGo bytes.length bytes

/-- Decimal digits (as ASCII code units, most significant first) of a
natural number, with fuel; models the JavaScript number-to-string
conversion for the integer values in range. -/
def natDecimalDigitsAux : Nat → Nat → List Nat
  | 0, _ => []
  | fuel + 1, n =>
    if n < 10 then [48 + n]
    else natDecimalDigitsAux fuel (n / 10) ++ [48 + n % 10]

/-- Decimal digit string of a natural number, as ASCII code units. -/
def natDecimalDigits (n : Nat) : List Nat :=
  natDecimalDigitsAux (n + 1) n

/-- Numeric value of a decimal ASCII digit string. -/
def digitsValue (ds : List Nat) : Nat :=
  ds.foldl (fun a d => a * 10 + (d - 48)) 0

/-- Source: `types.ts`. A primitive bencodable value is a boolean, a string
(the source type calls it ByteString but it is a JavaScript string) or a
number. -/
inductive BencodablePrimitive where
  | bool (b : Bool)
  | str (s : List Nat)
  | num (n : Int)
deriving DecidableEq, Repr

/-- Source: `types.ts`. A bencodable value is a primitive, an array of
primitives, or a key-value mapping (the source admits both a `Map` and a
plain object; `Objects.toMap` converts a plain object to a `Map` preserving
insertion order, so both are modelled as one entry list in insertion
order). -/
inductive Bencodable where
  | prim (p : BencodablePrimitive)
  | arr (a : List BencodablePrimitive)
  | dict (m : List (List Nat × BencodablePrimitive))
deriving DecidableEq, Repr

/-- Source: `encode.ts` `encodeInt`. Fails on a negative number; the
`Number.isInteger` guard is always satisfied in the model because the input
is an `Int`. Otherwise emits the utf-8 bytes of `i`, the decimal digits and
`e`. -/
def encodeInt (number : Int) : Except String (List Nat) :=
  if number < 0 then .error "Integer to be encoded cannot be negative"
  else .ok (utf8Encode (105 :: natDecimalDigits number.toNat ++ [101]))

/-- Source: `encode.ts` `encodeBoolean`: booleans are encoded as the
integers 1 and 0. -/
def encodeBoolean (b : Bool) : Except String (List Nat) :=
  encodeInt (if b then 1 else 0)

/-- Source: `encode.ts` `encodeString`: emits `text.length + ":" + text` as
a utf-8 buffer. Note that `text.length` is the UTF-16 code-unit count of
the string, not the byte count of its utf-8 payload. -/
def encodeString (text : List Nat) : List Nat :=
  utf8Encode (natDecimalDigits text.length ++ delimiter :: text)

/-- Source: `encode.ts` `encodePrimitive`: strings, then numbers, then
booleans. -/
def encodePrimitive : BencodablePrimitive → Except String (List Nat)
  | .str s => .ok (encodeString s)
  | .num n => encodeInt n
  | .bool b => encodeBoolean b

/-- Sequencing of a list of `Try` buffers, as the source folds with
`zipWith` over `Try.success([])`: left to right, keeping the first
failure. -/
def sequenceE : List (Except String (List Nat)) → Except String (List (List Nat))
  | [] => .ok []
  | x :: rest =>
    match x with
    | .error e => .error e
    | .ok v => (sequenceE rest).map (v :: ·)

/-- Source: `encode.ts` `encodeArray`: `l`, each element encoding, `e`. -/
def encodeArray (array : List BencodablePrimitive) : Except String (List (List Nat)) :=
  (sequenceE (array.map encodePrimitive)).map fun v => [108] :: v ++ [[101]]

/-- JavaScript string comparison: lexicographic on UTF-16 code units. This
is the order used by the default `Array.prototype.sort` on strings. -/
def lexLt : List Nat → List Nat → Bool
  | _, [] => false
  | [], _ :: _ => true
  | a :: as, b :: bs => if a < b then true else if b < a then false else lexLt as bs

/-- Insertion into a list sorted by `lexLt`. -/
def insertSorted (x : List Nat) : List (List Nat) → List (List Nat)
  | [] => [x]
  | y :: ys => if lexLt x y then x :: y :: ys else y :: insertSorted x ys

/-- Result of the default JavaScript `Array.prototype.sort` on an array of
strings: the input reordered ascending by code-unit comparison (the source
algorithm is unspecified by the language; for the duplicate-free key arrays
the encoder sorts, the result is the unique sorted permutation, which an
insertion sort computes). -/
def sortJs : List (List Nat) → List (List Nat)
  | [] => []
  | x :: xs => insertSorted x (sortJs xs)

/-- First value bound to a key in an entry list; models `Map.get`. -/
def lookupJs (m : List (List Nat × BencodablePrimitive)) (k : List Nat) :
    Option BencodablePrimitive :=
  match m with
  | [] => none
  | (k2, v) :: rest => if k2 = k then some v else lookupJs rest k

/-- Source: `encode.ts` `encodeMap`: sorts the keys with the default array
sort, then for each key pushes the key buffer and the value buffer, then
sequences the buffers and brackets them with `d` and `e`. -/
def encodeMap (m : List (List Nat × BencodablePrimitive)) :
    Except String (List (List Nat)) :=
  (sequenceE ((sortJs (m.map Prod.fst)).flatMap fun key =>
    [Except.ok (encodeString key),
     match lookupJs m key with
     | none => Except.error "Missing value for key"
     | some v => encodePrimitive v])).map fun v => [100] :: v ++ [[101]]

/-- Source: `encode.ts` `encode`: dispatches on the runtime shape of the
value (primitive, array, map or plain object — the latter two both reach
`encodeMap`) and concatenates the resulting buffer list. -/
def encode (obj : Bencodable) : Except String (List Nat) :=
  let buffers : Except String (List (List Nat)) :=
    match obj with
    | .prim p => (encodePrimitive p).map fun v => [v]
    | .arr a => encodeArray a
    | .dict m => encodeMap m
  buffers.map List.flatten

/-- Source: `decode.ts` `decodeDictionary`: a stub that logs its arguments
and returns success with the fixed consumed length 1; no dictionary content
is parsed. -/
def decodeDictionary (_bytes : List Nat) (_offset : Nat) :
    Except String (Unit × Nat) :=
  .ok ((), 1)

/-- Source: `decode.ts` `decodeBytes`, the while loop over the byte string
array. At each offset the loop reads the type token; a dictionary start
delegates to `decodeDictionary`, any other token throws. The loop is
modelled with fuel; since `decodeDictionary` always consumes 1 byte the
loop runs at most `length` iterations, so the fuel-exhaustion branch (an
artifact of the model) is unreachable with the fuel `decodeBytes`
supplies. -/
def decodeBytesGo (bytes : List Nat) : Nat → Nat → Except String Unit
  | _, 0 => .error "loop limit reached"
  | offset, fuel + 1 =>
    if offset < bytes.length then
      match bytes.get? offset with
      | none => .error "Value not available"
      | some type =>
        if type = dictionary_start then
          match decodeDictionary bytes offset with
          | .error e => .error e
          | .ok (_, lastLength) => decodeBytesGo bytes (offset + lastLength) fuel
        else .error "Unexpected type token"
    else .ok ()

/-- Source: `decode.ts` `decodeBytes`. -/
def decodeBytes (bytes : List Nat) : Except String Unit :=
  decodeBytesGo bytes 0 (bytes.length + 1)

/-- Source: `decode.ts` `decode`, the top-level entry point: filters on the
always-true condition `length >= 0`, converts the buffer to a byte string
array via `toString` (utf-8) and `split`, runs `decodeBytes` (whose thrown
errors the `Try` map combinator catches), and finally maps the result to
the empty string placeholder, discarding whatever was decoded. -/
def decode (buffer : List Nat) : Except String (List Nat) :=
  if buffer.length ≥ 0 then
    match decodeBytes (utf8Decode buffer) with
    | .error e => .error e
    | .ok _ => .ok []
  else .error "Data is empty"

/-- Source: `decode.ts` `findNextDelimiterOffsetPosition`, the scanning
while loop, with fuel. Reading past the end of the array gives `undefined`,
which is not the delimiter, so the loop body then throws on
`Try.unwrap(undefined)`; the fuel-exhaustion branch returns the same error
and is unreachable for the fuel supplied by the wrapper (the offset grows
by 1 per step and each step requires an in-bounds read). -/
def findDelimGo (bytes : List Nat) : Nat → Nat → Except String Nat
  | _, 0 => .error "Value not available"
  | offset, fuel + 1 =>
    match bytes.get? offset with
    | none => .error "Value not available"
    | some c =>
      if c = delimiter then .ok offset
      else findDelimGo bytes (offset + 1) fuel

/-- Source: `decode.ts` `findNextDelimiterOffsetPosition`: the absolute
index of the next `:` at or after `offset`, or a failure if the array ends
first. -/
def findNextDelimiterOffsetPosition (bytes : List Nat) (offset : Nat) :
    Except String Nat :=
  findDelimGo bytes offset (bytes.length + 1)

/-- JavaScript `Number.parseInt` restricted to what the decoder feeds it: a
maximal leading run of decimal digits, `none` when the first character is
not a digit (`NaN` in the source; the sign and whitespace handling of
`parseInt` is not modelled — no claim exercises it). -/
def parseJsNat (cs : List Nat) : Option Nat :=
  match cs with
  | [] => none
  | c :: _ =>
    if 48 ≤ c ∧ c ≤ 57 then
      some (digitsValue (cs.takeWhile fun d => 48 ≤ d ∧ d ≤ 57))
    else none

/-- Source: `decode.ts` `decodeStringLength`: parses the digits between
`offset` and the next delimiter and returns them with the absolute
delimiter position (the source doc calls it the distance from the original
offset, which only agrees at offset 0). -/
def decodeStringLength (bytes : List Nat) (offset : Nat) :
    Except String (Option Nat × Nat) :=
  (findNextDelimiterOffsetPosition bytes offset).map fun v =>
    (parseJsNat ((bytes.drop offset).take (v - offset)), v)

/-- Elements of `bytes` at positions `[start, start + count)`; models the
`Numbers.range` fold over `Collections.elementAtIndex` in
`decodeStringContent`, failing when any index is out of bounds. -/
def collectRange (bytes : List Nat) (start : Nat) : Nat → Option (List Nat)
  | 0 => some []
  | n + 1 =>
    match bytes.get? start with
    | none => none
    | some c => (collectRange bytes (start + 1) n).map (c :: ·)

/-- Source: `decode.ts` `decodeStringContent`: checks the delimiter at
`offset`, then reads `length` characters after it, returning them together
with `length` (note: not `length + 1`, the delimiter itself is not
counted). -/
def decodeStringContent (bytes : List Nat) (offset : Nat) (length : Nat) :
    Except String (List Nat × Nat) :=
  match bytes.get? offset with
  | none => .error "Value not available"
  | some c =>
    if c = delimiter then
      match collectRange bytes (offset + 1) length with
      | none => .error "Value not available"
      | some content => .ok (content, length)
    else .error "Incorrect delimiter found"

/-- Source: `decode.ts` `decodeString`: decodes the length, then the
content at `offset + (delimiter position)`, and adds that base back onto
the distance reported by `decodeStringContent`. A `NaN` length (no claim
exercises it) is modelled as a failure. -/
def decodeString (bytes : List Nat) (offset : Nat) :
    Except String (List Nat × Nat) :=
  (decodeStringLength bytes offset).bind fun v =>
    match v.1 with
    | none => .error "NaN string length"
    | some len =>
      let afterLengthOffset := offset + v.2
      (decodeStringContent bytes afterLengthOffset len).map fun v1 =>
        (v1.1, v1.2 + afterLengthOffset)

end Bencode

namespace BTMessaging

/-- Source: `BTMessaging.ts` `ConnectionResponseType`. -/
structure ConnectionResponseType where
  action : Nat
  transactionId : Nat
  connectionId : List Nat
deriving DecidableEq, Repr

/-- Node `buffer.readUInt32BE(offset)`: the big-endian 32-bit value at
`offset`, or a failure when fewer than 4 bytes remain (Node throws a
RangeError; in `parseConnectionResponse` such a throw would escape the
function, which the model folds into the returned failure — the claims
only concern 16-byte buffers, where every read is in bounds). -/
def readUInt32BE (buffer : List Nat) (offset : Nat) : Except String Nat :=
  match (buffer.drop offset).take 4 with
  | [b0, b1, b2, b3] => .ok (b0 * 16777216 + b1 * 65536 + b2 * 256 + b3)
  | _ => .error "offset out of range"

/-- Node `buffer.writeUInt32BE(value, offset)`: overwrites the 4 bytes at
`offset` with the big-endian bytes of `value`. -/
def writeUInt32BE (buffer : List Nat) (value : Nat) (offset : Nat) : List Nat :=
  buffer.take offset ++
    [value / 16777216 % 256, value / 65536 % 256, value / 256 % 256, value % 256] ++
    buffer.drop (offset + 4)

/-- Node `source.copy(target, targetStart)`: overwrites the bytes of the
target from `targetStart` on with the source bytes, truncating the source
to the room available. -/
def copyInto (source target : List Nat) (targetStart : Nat) : List Nat :=
  target.take targetStart ++ source.take (target.length - targetStart) ++
    target.drop (targetStart + min source.length (target.length - targetStart))

/-- Source: `BTMessaging.ts` `createConnectMessage`: takes the 4 random
bytes the randomizer supplies as the transaction id, allocates a
zero-filled 16-byte buffer, writes 0x417 at offset 0 and 0x27101980 at
offset 4 (together the 8-byte protocol id), writes the action 0 at offset
8, and copies the transaction id to offset 12. The try/catch of the source
has no failing path in the model. -/
def createConnectMessage (transactionId : List Nat) : Except String (List Nat) :=
  let message := List.replicate 16 0
  let message := writeUInt32BE message 0x417 0
  let message := writeUInt32BE message 0x27101980 4
  let message := writeUInt32BE message 0 8
  .ok (copyInto transactionId message 12)

/-- Source: `BTMessaging.ts` `parseConnectionResponse`: reads the
transaction id at offset 4, the connection id as everything from offset 8
(required only to be non-empty) and the action at offset 0, and packs the
three into a record. No comparison of the action against 0 and no
comparison of the transaction id against any outstanding request occurs;
the function does not even receive the request transaction id. -/
def parseConnectionResponse (response : List Nat) :
    Except String ConnectionResponseType :=
  (readUInt32BE response 4).bind fun transactionId =>
    let connectionId := response.drop 8
    if connectionId.length > 0 then
      (readUInt32BE response 0).map fun action =>
        ⟨action, transactionId, connectionId⟩
    else .error "Invalid connection id"

end BTMessaging

namespace Bencode

/-- The order the encoder arranges keys in: `a` may precede `b` when `b` is
not strictly below `a` in the JavaScript string order. -/
def keyLe (a b : List Nat) : Prop := lexLt b a = false

/-- The JavaScript string order is asymmetric. -/
theorem lexLt_asymm : ∀ x y : List Nat, lexLt x y = true → lexLt y x = false := by
  intro x
  induction x with
  | nil =>
    intro y h
    cases y with
    | nil => simp [lexLt] at h
    | cons b bs => simp [lexLt]
  | cons a as ih =>
    intro y h
    cases y with
    | nil => simp [lexLt] at h
    | cons b bs =>
      simp only [lexLt] at h ⊢
      by_cases h1 : a < b
      · have h2 : ¬ b < a := by omega
        simp [h1, h2]
      · by_cases h2 : b < a
        · simp [h1, h2] at h
        · simp [h1, h2] at h ⊢
          exact ih bs h

/-- Two strings neither of which is below the other are equal. -/
theorem lexLt_antisymm : ∀ x y : List Nat,
    lexLt x y = false → lexLt y x = false → x = y := by
  intro x
  induction x with
  | nil =>
    intro y h1 _
    cases y with
    | nil => rfl
    | cons b bs => simp [lexLt] at h1
  | cons a as ih =>
    intro y h1 h2
    cases y with
    | nil => simp [lexLt] at h2
    | cons b bs =>
      simp only [lexLt] at h1 h2
      by_cases hab : a < b
      · simp [hab] at h1
      · by_cases hba : b < a
        · simp [hba] at h2
        · have hb : a = b := by omega
          subst hb
          simp [Nat.lt_irrefl] at h1 h2
          rw [ih bs h1 h2]

/-- Transitivity of the reflexive JavaScript string order. -/
theorem lexLt_le_trans : ∀ x y z : List Nat,
    lexLt y x = false → lexLt z y = false → lexLt z x = false := by
  intro x
  induction x with
  | nil =>
    intro y z _ _
    cases z <;> simp [lexLt]
  | cons a as ih =>
    intro y z h1 h2
    cases y with
    | nil => simp [lexLt] at h1
    | cons b bs =>
      cases z with
      | nil => simp [lexLt] at h2
      | cons c cs =>
        simp only [lexLt] at h1 h2 ⊢
        by_cases hba : b < a
        · simp [hba] at h1
        · by_cases hcb : c < b
          · simp [hcb] at h2
          · have hca : ¬ c < a := by omega
            by_cases hac : a < c
            · simp [hca, hac]
            · have hab : a = b := by omega
              have hbc : b = c := by omega
              subst hab
              subst hbc
              simp [Nat.lt_irrefl] at h1 h2 ⊢
              exact ih bs cs h1 h2

/-- Inserting into a list yields a permutation of consing. -/
theorem insertSorted_perm (x : List Nat) :
    ∀ l, (insertSorted x l).Perm (x :: l) := by
  intro l
  induction l with
  | nil => exact List.Perm.refl _
  | cons y ys ih =>
    simp only [insertSorted]
    split
    · exact List.Perm.refl _
    · exact (ih.cons y).trans (List.Perm.swap x y ys)

/-- Insertion preserves sortedness in the `keyLe` order. -/
theorem insertSorted_pairwise (x : List Nat) :
    ∀ l, l.Pairwise keyLe → (insertSorted x l).Pairwise keyLe := by
  intro l
  induction l with
  | nil =>
    intro _
    simp [insertSorted]
  | cons y ys ih =>
    intro hp
    rw [List.pairwise_cons] at hp
    obtain ⟨hy, hys⟩ := hp
    simp only [insertSorted]
    by_cases hxy : lexLt x y = true
    · rw [if_pos hxy, List.pairwise_cons]
      refine ⟨?_, ?_⟩
      · intro z hz
        rcases List.mem_cons.mp hz with rfl | hz
        · exact lexLt_asymm x z hxy
        · exact lexLt_le_trans x y z (lexLt_asymm x y hxy) (hy z hz)
      · rw [List.pairwise_cons]
        exact ⟨hy, hys⟩
    · have hxy2 : lexLt x y = false := by
        revert hxy
        cases lexLt x y <;> simp
      rw [if_neg hxy, List.pairwise_cons]
      refine ⟨?_, ih hys⟩
      intro z hz
      have hz2 : z = x ∨ z ∈ ys := by
        have hmem := (insertSorted_perm x ys).mem_iff.mp hz
        simpa using hmem
      rcases hz2 with rfl | hz2
      · exact hxy2
      · exact hy z hz2

/-- The sorted key array is a permutation of the input. -/
theorem sortJs_perm : ∀ l, (sortJs l).Perm l := by
  intro l
  induction l with
  | nil => exact List.Perm.refl _
  | cons x xs ih => exact (insertSorted_perm x (sortJs xs)).trans (ih.cons x)

/-- The sorted key array is ascending in the `keyLe` order. -/
theorem sortJs_pairwise : ∀ l, (sortJs l).Pairwise keyLe := by
  intro l
  induction l with
  | nil => simp [sortJs]
  | cons x xs ih => exact insertSorted_pairwise x _ ih

/-- Sorting is a function of the multiset of keys: permuted inputs sort to
the same array. -/
theorem sortJs_eq_of_perm {l1 l2 : List (List Nat)} (h : l1.Perm l2) :
    sortJs l1 = sortJs l2 := by
  haveI : IsAntisymm (List Nat) keyLe :=
    ⟨fun a b hab hba => lexLt_antisymm a b hba hab⟩
  exact List.eq_of_perm_of_sorted
    ((sortJs_perm l1).trans (h.trans (sortJs_perm l2).symm))
    (sortJs_pairwise l1) (sortJs_pairwise l2)

/-- On entry lists with duplicate-free keys, lookup is invariant under
permutation. -/
theorem lookupJs_perm (k : List Nat) :
    ∀ {m1 m2 : List (List Nat × BencodablePrimitive)}, m1.Perm m2 →
      (m1.map Prod.fst).Nodup → lookupJs m1 k = lookupJs m2 k := by
  intro m1 m2 h
  induction h with
  | nil =>
    intro _
    rfl
  | cons x h ih =>
    intro hnd
    obtain ⟨kx, vx⟩ := x
    have hnd2 : ((kx, vx) :: _).map Prod.fst |>.Nodup := hnd
    rw [List.map_cons, List.nodup_cons] at hnd2
    simp only [lookupJs]
    split
    · rfl
    · exact ih hnd2.2
  | swap x y l =>
    intro hnd
    obtain ⟨kx, vx⟩ := x
    obtain ⟨ky, vy⟩ := y
    rw [List.map_cons, List.map_cons, List.nodup_cons] at hnd
    have hne : ky ≠ kx := by
      intro hk
      exact hnd.1 (by simp [hk])
    simp only [lookupJs]
    by_cases h1 : ky = k <;> by_cases h2 : kx = k
    · exact absurd (h1.trans h2.symm) hne
    · simp [h1, h2]
    · simp [h1, h2]
    · simp [h1, h2]
  | trans h1 h2 ih1 ih2 =>
    intro hnd
    have hnd2 := ((h1.map Prod.fst).nodup_iff).mp hnd
    exact (ih1 hnd).trans (ih2 hnd2)

/-- Dictionary encoding is canonical: two entry lists holding the same
key-value pairs (in any order, keys duplicate-free) encode identically,
because the encoder itself sorts the keys and looks each value up by
key. -/
theorem encodeMap_perm {m1 m2 : List (List Nat × BencodablePrimitive)}
    (h : m1.Perm m2) (hnd : (m1.map Prod.fst).Nodup) :
    encodeMap m1 = encodeMap m2 := by
  have hkeys : sortJs (m1.map Prod.fst) = sortJs (m2.map Prod.fst) :=
    sortJs_eq_of_perm (h.map Prod.fst)
  have hfun : (fun key =>
      [Except.ok (encodeString key),
       match lookupJs m1 key with
       | none => Except.error "Missing value for key"
       | some v => encodePrimitive v]) =
      (fun key =>
      [Except.ok (encodeString key),
       match lookupJs m2 key with
       | none => Except.error "Missing value for key"
       | some v => encodePrimitive v]) := by
    funext key
    rw [lookupJs_perm key h hnd]
  simp only [encodeMap, hkeys, hfun]

/-- Every decimal digit emitted by the number-to-string conversion is an
ASCII code unit. -/
theorem natDecimalDigitsAux_mem_lt (fuel : Nat) :
    ∀ n d, d ∈ natDecimalDigitsAux fuel n → d < 128 := by
  induction fuel with
  | zero =>
    intro n d hd
    simp [natDecimalDigitsAux] at hd
  | succ fuel ih =>
    intro n d hd
    simp only [natDecimalDigitsAux] at hd
    split at hd
    next h10 =>
      simp at hd
      omega
    next h10 =>
      rw [List.mem_append] at hd
      rcases hd with hd | hd
      · exact ih _ _ hd
      · simp at hd
        omega

/-- Folding the digit characters back into a number recovers the input:
the digit string of `n` is a faithful decimal representation. -/
theorem foldl_natDecimalDigitsAux (fuel : Nat) :
    ∀ n init, n < fuel →
      (natDecimalDigitsAux fuel n).foldl (fun a d => a * 10 + (d - 48)) init =
        init * 10 ^ (natDecimalDigitsAux fuel n).length + n := by
  induction fuel with
  | zero =>
    intro n init h
    exact absurd h (Nat.not_lt_zero n)
  | succ fuel ih =>
    intro n init h
    simp only [natDecimalDigitsAux]
    split
    next h10 =>
      simp only [List.foldl_cons, List.foldl_nil, List.length_cons,
        List.length_nil, pow_one, pow_zero]
      omega
    next h10 =>
      rw [List.foldl_append, ih (n / 10) init (by omega)]
      simp only [List.foldl_cons, List.foldl_nil, List.length_append,
        List.length_cons, List.length_nil]
      have hmod : 48 + n % 10 - 48 = n % 10 := by omega
      rw [hmod]
      have hp : 10 ^ ((natDecimalDigitsAux fuel (n / 10)).length + (0 + 1)) =
          10 ^ (natDecimalDigitsAux fuel (n / 10)).length * 10 := by
        rw [Nat.zero_add, pow_succ]
      rw [hp]
      have hdm : n / 10 * 10 + n % 10 = n := by omega
      calc (init * 10 ^ (natDecimalDigitsAux fuel (n / 10)).length + n / 10) * 10 + n % 10
          = init * (10 ^ (natDecimalDigitsAux fuel (n / 10)).length * 10) +
            (n / 10 * 10 + n % 10) := by ring
        _ = init * (10 ^ (natDecimalDigitsAux fuel (n / 10)).length * 10) + n := by
            rw [hdm]

/-- The decimal digit string of `n` evaluates back to `n`. -/
theorem digitsValue_natDecimalDigits (n : Nat) :
    digitsValue (natDecimalDigits n) = n := by
  have h := foldl_natDecimalDigitsAux (n + 1) n 0 (Nat.lt_succ_self n)
  simpa [digitsValue, natDecimalDigits] using h

/-- UTF-8 encoding is the identity on ASCII code units. -/
theorem utf8EncodeGo_ascii : ∀ (fuel : Nat) (us : List Nat), us.length ≤ fuel →
    (∀ u ∈ us, u < 128) → utf8EncodeGo fuel us = us := by
  intro fuel
  induction fuel with
  | zero =>
    intro us hlen _
    have hnil : us = [] := List.eq_nil_of_length_eq_zero (Nat.le_zero.mp hlen)
    subst hnil
    rfl
  | succ fuel ih =>
    intro us hlen hall
    cases us with
    | nil => rfl
    | cons u rest =>
      have hu : u < 128 := hall u (List.mem_cons_self u rest)
      have hrest : rest.length ≤ fuel := by
        simp only [List.length_cons] at hlen
        omega
      simp only [utf8EncodeGo, if_pos hu]
      rw [ih rest hrest fun v hv => hall v (List.mem_cons_of_mem u hv)]

/-- UTF-8 encoding fixes ASCII strings. -/
theorem utf8Encode_ascii (us : List Nat) (h : ∀ u ∈ us, u < 128) :
    utf8Encode us = us :=
  utf8EncodeGo_ascii us.length us (Nat.le_refl _) h

end Bencode

/-- C1. The claimed round trip `decode(encode(v)) == (v, fullLength)` fails
on the code: encoding the byte string value "spam" yields the buffer
`4:spam`, and the top-level decoder rejects it with an unexpected-token
error, because `decodeBytes` only accepts dictionary tokens and even for
those would discard the result and return an empty-string placeholder with
no consumed-byte count. -/
theorem decode_encode_not_roundtrip :
    Bencode.encode (.prim (.str [115, 112, 97, 109])) =
      .ok [52, 58, 115, 112, 97, 109] ∧
    Bencode.decode [52, 58, 115, 112, 97, 109] =
      .error "Unexpected type token" :=
  ⟨rfl, rfl⟩

/-- C2. Decoding the bencoded literal `4:spam` at offset 0 yields the
string "spam" but the consumed-byte count 5, not the claimed 6: the code
adds the content length 4 to the delimiter position 1 and never counts the
delimiter byte itself. -/
theorem decodeString_spam_consumes_five :
    Bencode.decodeString [52, 58, 115, 112, 97, 109] 0 =
      .ok ([115, 112, 97, 109], 5) :=
  rfl

set_option maxRecDepth 10000 in
/-- C3. The decoder has no recursion-depth bound at all: an input of 501
consecutive dictionary-start tokens (nesting depth 501, beyond the claimed
maximum of 500) is decoded successfully to the placeholder value instead of
failing with a dedicated recursion-depth error. -/
theorem decode_deep_nesting_no_depth_error :
    Bencode.decode (List.replicate 501 Bencode.dictionary_start) = .ok [] := by
  rfl

/-- C4. `parseConnectionResponse` performs no validation: a 16-byte buffer
whose action field is 1 (not the required 0) is accepted and parsed into a
connection response record; the function does not even receive the request
transaction id it would need in order to reject a mismatched response. -/
theorem parseConnectionResponse_accepts_mismatched_action :
    BTMessaging.parseConnectionResponse
      [0, 0, 0, 1, 0, 0, 0, 0, 9, 9, 9, 9, 9, 9, 9, 9] =
      .ok ⟨1, 0, [9, 9, 9, 9, 9, 9, 9, 9]⟩ :=
  rfl

/-- C5 counterexample. The keys are not emitted in byte-wise ascending
order of their encodings: for the two keys U+FFFD and U+10000 (a surrogate
pair in UTF-16), the default JavaScript sort places the surrogate pair
first (code unit 0xD800 is below 0xFFFD), yet its UTF-8 encoding
`F0 90 80 80` is byte-wise above the `EF BF BD` of U+FFFD, so the encoder
emits the byte-wise larger key first. -/
theorem encodeMap_bytewise_order_counterexample :
    Bencode.encode (.dict [([65533], .num 0), ([55296, 56320], .num 0)]) =
      .ok ([100] ++ [50, 58, 240, 144, 128, 128] ++ [105, 48, 101] ++
        [49, 58, 239, 191, 189] ++ [105, 48, 101] ++ [101]) ∧
    Bencode.lexLt (Bencode.utf8Encode [65533])
      (Bencode.utf8Encode [55296, 56320]) = true ∧
    Bencode.sortJs [[65533], [55296, 56320]] = [[55296, 56320], [65533]] :=
  ⟨rfl, rfl, rfl⟩

/-- C5 (amended). Encoding a dictionary is canonical and independent of key
insertion order: any two entry lists holding identical key-value pairs in
different orders (keys duplicate-free) encode to identical bytes, and the
keys are emitted in ascending UTF-16 code-unit order — the order of the
default JavaScript string sort, performed by the encoder itself — which
coincides with byte-wise ascending order of the encoded keys whenever no
key contains a supplementary-plane character (in particular for all ASCII
keys). -/
theorem encodeMap_canonical (m1 m2 : List (List Nat × Bencode.BencodablePrimitive))
    (hperm : m1.Perm m2) (hnd : (m1.map Prod.fst).Nodup) :
    Bencode.encodeMap m1 = Bencode.encodeMap m2 ∧
    (Bencode.sortJs (m1.map Prod.fst)).Pairwise Bencode.keyLe :=
  ⟨Bencode.encodeMap_perm hperm hnd, Bencode.sortJs_pairwise _⟩

/-- C5 witness: the two-entry dictionaries with keys "a" and "b" inserted
in either order encode identically, with the sorted key array ascending. -/
theorem encodeMap_canonical_witness :
    Bencode.encodeMap [([98], .num 2), ([97], .num 1)] =
      Bencode.encodeMap [([97], .num 1), ([98], .num 2)] ∧
    (Bencode.sortJs ([([98], (.num 2 : Bencode.BencodablePrimitive)),
      ([97], .num 1)].map Prod.fst)).Pairwise Bencode.keyLe :=
  encodeMap_canonical [([98], .num 2), ([97], .num 1)]
    [([97], .num 1), ([98], .num 2)] (by decide) (by decide)

/-- C6. The length prefix emitted by `encodeString` is the UTF-16 code-unit
count of the string, not the byte length of the utf-8 payload: the one-
character string U+00E9 is encoded as the bytes `1:` followed by the
two-byte payload `C3 A9`, so the prefix 1 understates the 2-byte payload. -/
theorem encodeString_prefix_counts_code_units :
    Bencode.encodeString [233] = [49, 58, 195, 169] ∧
    (Bencode.utf8Encode [233]).length = 2 ∧
    Bencode.natDecimalDigits ([233] : List Nat).length = [49] :=
  ⟨rfl, rfl, rfl⟩

/-- C7. Negative integers are rejected with the typed unrepresentable-value
failure and no output; every non-negative integer is encoded as the byte
`i`, the decimal digits of the value, and the byte `e`, with the digit
string evaluating back to the encoded value. -/
theorem encodeInt_spec (n : Int) :
    (n < 0 →
      Bencode.encodeInt n = .error "Integer to be encoded cannot be negative") ∧
    (0 ≤ n →
      Bencode.encodeInt n =
        .ok (105 :: Bencode.natDecimalDigits n.toNat ++ [101]) ∧
      Bencode.digitsValue (Bencode.natDecimalDigits n.toNat) = n.toNat) := by
  constructor
  · intro h
    simp [Bencode.encodeInt, h]
  · intro h
    refine ⟨?_, Bencode.digitsValue_natDecimalDigits _⟩
    have h2 : ¬ n < 0 := by omega
    simp only [Bencode.encodeInt, if_neg h2]
    congr 1
    apply Bencode.utf8Encode_ascii
    intro u hu
    rcases List.mem_cons.mp hu with rfl | hu
    · omega
    · rcases List.mem_append.mp hu with hu | hu
      · exact Bencode.natDecimalDigitsAux_mem_lt _ _ _ hu
      · simp at hu
        omega

/-- C7 witness: encoding -3 fails with the typed error and encoding 7
emits `i7e`. -/
theorem encodeInt_spec_witness :
    Bencode.encodeInt (-3) = .error "Integer to be encoded cannot be negative" ∧
    (Bencode.encodeInt 7 =
      .ok (105 :: Bencode.natDecimalDigits ((7 : Int)).toNat ++ [101]) ∧
    Bencode.digitsValue (Bencode.natDecimalDigits ((7 : Int)).toNat) =
      ((7 : Int)).toNat) :=
  ⟨(encodeInt_spec (-3)).1 (by decide), (encodeInt_spec 7).2 (by decide)⟩

/-- C8. For a randomizer supplying 4 transaction-id bytes, the Connect
request is exactly 16 bytes: bytes 0 to 7 are the big-endian constant
0x0000041727101980, bytes 8 to 11 are zero (the action 0) and bytes 12 to
15 are the transaction id. -/
theorem createConnectMessage_spec (transactionId : List Nat)
    (h : transactionId.length = 4) :
    BTMessaging.createConnectMessage transactionId =
      .ok ([0, 0, 4, 23, 39, 16, 25, 128, 0, 0, 0, 0] ++ transactionId) ∧
    ([0, 0, 4, 23, 39, 16, 25, 128, 0, 0, 0, 0] ++ transactionId).length = 16 ∧
    List.foldl (fun a b => a * 256 + b) 0 [0, 0, 4, 23, 39, 16, 25, 128] =
      0x0000041727101980 := by
  cases transactionId with
  | nil => simp at h
  | cons a t0 =>
    cases t0 with
    | nil => simp at h
    | cons b t1 =>
      cases t1 with
      | nil => simp at h
      | cons c t2 =>
        cases t2 with
        | nil => simp at h
        | cons d t3 =>
          cases t3 with
          | cons e t4 =>
            simp only [List.length_cons, List.length_nil] at h
            omega
          | nil => exact ⟨rfl, rfl, rfl⟩

/-- C8 witness: the connect message for the transaction id 01 02 03 04. -/
theorem createConnectMessage_spec_witness :
    BTMessaging.createConnectMessage [1, 2, 3, 4] =
      .ok ([0, 0, 4, 23, 39, 16, 25, 128, 0, 0, 0, 0] ++ [1, 2, 3, 4]) ∧
    ([0, 0, 4, 23, 39, 16, 25, 128, 0, 0, 0, 0] ++ [1, 2, 3, 4]).length = 16 ∧
    List.foldl (fun a b => a * 256 + b) 0 [0, 0, 4, 23, 39, 16, 25, 128] =
      0x0000041727101980 :=
  createConnectMessage_spec [1, 2, 3, 4] rfl

/-- C9. Encoding the key-value object mapping "a" to 1 and "b" to "spam"
produces exactly the bytes of `d1:ai1e1:b4:spame`. -/
theorem encode_object_literal :
    Bencode.encode (.dict [([97], .num 1), ([98], .str [115, 112, 97, 109])]) =
      .ok [100, 49, 58, 97, 105, 49, 101, 49, 58, 98,
        52, 58, 115, 112, 97, 109, 101] :=
  rfl

/-- C10. Booleans are encoded through the integer path: `encodeBoolean b`
is `encodeInt (if b then 1 else 0)`, so true encodes to `i1e` and false to
`i0e`, and `encodePrimitive` routes boolean values to `encodeBoolean`. -/
theorem encodeBoolean_as_integer :
    (∀ b, Bencode.encodeBoolean b = Bencode.encodeInt (if b then 1 else 0)) ∧
    Bencode.encodeBoolean true = .ok [105, 49, 101] ∧
    Bencode.encodeBoolean false = .ok [105, 48, 101] ∧
    (∀ b, Bencode.encodePrimitive (.bool b) = Bencode.encodeBoolean b) :=
  ⟨fun _ => rfl, rfl, rfl, fun _ => rfl⟩
